import Mathlib

/-!
Verification of the signerflow-crl ingestion pipeline and query path.

Shallow embedding of the Go sources:
  * `services/crl_service.go` — `ProcessAllCRLs`, `ProcessSingleCRL`,
    `formatSerial`, `normalizeSerial`, `CheckCertificateStatus`;
  * `database` (part_001) — `BatchInsertRevokedCertificates`,
    `GetCertificateStatus` (upsert keyed by serial, transactional batches);
  * `cache/redis.go` — `SetCertificateStatus` / `GetCertificateStatus`,
    `SetCRLProcessing` / `IsCRLProcessing` (the processing lease);
  * `models` (part_002) — record types and the `RevocationReasons` table.

Machine integers in the Go code are small loop counters and sizes; they are
modelled as `Nat` (no overflow is reachable: batch sizes are bounded by 500
and counters by list lengths).  Timestamps are opaque `Nat` values.  The
durable store and the Redis cache are modelled as total functions from
serial keys to optional values; fallible calls take explicit error oracles
and return `Except`.
-/

namespace SignerFlow


/-- Row of the `revoked_certificates` table / `models.RevokedCertificate`
(the `created_at` / `updated_at` bookkeeping columns, which the spec's data
model lists separately from the record fields, are not part of the record). -/
structure RevokedCertificate where
  serial : String
  revocationDate : Nat
  reason : Nat
  reasonText : String
  certificateAuthority : String
deriving DecidableEq, Repr

/-- Query-time projection `models.CertificateStatus`: the optional fields are
present only for revoked results (`omitempty` in the Go struct). -/
structure CertificateStatus where
  serial : String
  isRevoked : Bool
  revocationDate : Option Nat
  reason : Option String
  certificateAuthority : Option String
deriving DecidableEq, Repr

/-- An X.509 CRL-entry extension as the parser hands it to the service loop:
an object identifier and the raw value bytes. -/
structure EntryExtension where
  oid : List Nat
  value : List Nat
deriving DecidableEq, Repr

/-- One entry of `crl.TBSCertList.RevokedCertificates`. -/
structure RevokedEntry where
  serialNumber : Nat
  revocationTime : Nat
  extensions : List EntryExtension
deriving DecidableEq, Repr

/-- The static `models.RevocationReasons` map; `none` models a key that is
absent from the Go map (whose zero-value read yields `""`). -/
def RevocationReasons : Nat → Option String
  | 0 => some "No especificado"
  | 1 => some "Compromiso de clave"
  | 2 => some "Compromiso de CA"
  | 3 => some "Cambio de afiliación"
  | 4 => some "Reemplazado"
  | 5 => some "Cese de operaciones"
  | 6 => some "Retención de certificado"
  | 8 => some "Eliminado de CRL"
  | 9 => some "Privilegio retirado"
  | 10 => some "Compromiso de AA"
  | _ => none

/-- The OID `2.5.29.21` (`id-ce-cRLReasons`) tested in `ProcessSingleCRL`. -/
def reasonOid : List Nat := [2, 5, 29, 21]

/-- The reason-extraction loop of `ProcessSingleCRL`: starting from
`reason = 0`, `reasonText = ""`, each extension with OID 2.5.29.21 and a
non-empty value sets `reason = int(ext.Value[0])`.  The subsequent table
lookup in the Go source assigns to a `reasonText` that is re-declared (and
hence shadowed) inside the `if` statement, so the outer `reasonText`
variable is never changed by it. -/
def extractReason (exts : List EntryExtension) : Nat × String :=
  exts.foldl
    (fun acc ext =>
      if ext.oid = reasonOid then
        if 0 < ext.value.length then (ext.value.headD 0, acc.2) else acc
      else acc)
    (0, "")

/-- `formatSerial`: `big.Int.String()`, the decimal textual form. -/
def formatSerial (serial : Nat) : String := toString serial

/-- The `normalizeSerial` body: it returns its input unchanged.  (Its Go doc
comment announces a hexadecimal-to-decimal conversion that the body does not
perform.) -/
def normalizeSerial (serial : String) : String := serial

/-- Builds the `models.RevokedCertificate` value that `ProcessSingleCRL`
appends for one parsed CRL entry. -/
def entryToRecord (issuerNameStr : String) (e : RevokedEntry) : RevokedCertificate :=
  let rp := extractReason e.extensions
  { serial := formatSerial e.serialNumber
    revocationDate := e.revocationTime
    reason := rp.1
    reasonText := rp.2
    certificateAuthority := issuerNameStr }

/-- The durable store: the `revoked_certificates` table, keyed uniquely by
serial. -/
abbrev Store := String → Option RevokedCertificate

/-- The Redis cache: for each `cert:<serial>` key, the stored status and the
TTL (in hours) it was written with. -/
abbrev CacheMap := String → Option (CertificateStatus × Nat)

/-- Store with no rows. -/
def emptyStore : Store := fun _ => none

/-- Cache with no entries. -/
def emptyCache : CacheMap := fun _ => none

/-- One `INSERT ... ON CONFLICT (serial) DO UPDATE` statement: the existing
row for that serial, if any, is fully replaced. -/
def upsertCert (st : Store) (c : RevokedCertificate) : Store :=
  fun s => if s = c.serial then some c else st s

/-- The statement loop inside the `BatchInsertRevokedCertificates`
transaction: executes the upserts in order against the transaction-local
state, failing at index `failAt` when the oracle says so (a failed
`stmt.Exec` aborts the transaction). -/
def txExecAll : Nat → Option Nat → Store → List RevokedCertificate → Except Unit Store
  | _, _, txSt, [] => Except.ok txSt
  | i, failAt, txSt, c :: cs =>
    if failAt = some i then Except.error ()
    else txExecAll (i + 1) failAt (upsertCert txSt c) cs

/-- `database.BatchInsertRevokedCertificates`: an empty slice returns
immediately; otherwise all upserts run inside one transaction, and on any
error the deferred `tx.Rollback` leaves the durable store unchanged (the
caller receives only the error), while `tx.Commit` publishes every upsert at
once. -/
def BatchInsertRevokedCertificates (failAt : Option Nat) (st : Store)
    (certs : List RevokedCertificate) : Except Unit Store :=
  if certs.isEmpty then Except.ok st
  else
    match txExecAll 0 failAt st certs with
    | Except.error _ => Except.error ()
    | Except.ok txSt => Except.ok txSt

/-- Decides whether a batch paired with its failure oracle commits. -/
def batchOk (p : List RevokedCertificate × Option Nat) : Bool :=
  p.1.isEmpty ||
    match p.2 with
    | none => true
    | some k => decide (p.1.length ≤ k)

/-- The local `batchSize := 500` of `ProcessSingleCRL`. -/
def batchSize : Nat := 500

/-- TTL (hours) used by the ingestion-path cache writes: `24*time.Hour`. -/
def ingestCacheTTL : Nat := 24

/-- TTL (hours) chosen by the `CheckCertificateStatus` write-back:
`24*time.Hour`, raised to `7*24*time.Hour` for revoked statuses. -/
def queryCacheTTL (isRevoked : Bool) : Nat := if isRevoked then 7 * 24 else 24

/-- `cache.SetCertificateStatus`: stores the status under `cert:<serial>`
with the given TTL.  Redis errors are logged and swallowed by every caller,
so the model records a successful write. -/
def SetCertificateStatus (cm : CacheMap) (serial : String)
    (status : CertificateStatus) (ttl : Nat) : CacheMap :=
  fun s => if s = serial then some (status, ttl) else cm s

/-- The `models.CertificateStatus` value that `ProcessSingleCRL` pushes into
the cache for a batched record — the revoked flag is true and the reason field points
at the record's `ReasonText`. -/
def cachedStatusOfRecord (issuerNameStr : String) (c : RevokedCertificate) :
    CertificateStatus :=
  { serial := c.serial
    isRevoked := true
    revocationDate := some c.revocationDate
    reason := some c.reasonText
    certificateAuthority := some issuerNameStr }

/-- Mutable state threaded through one `ProcessSingleCRL` run: the durable
store, the cache, and the `processed` counter. -/
structure IngestState where
  store : Store
  cache : CacheMap
  processed : Nat

/-- One flush block of `ProcessSingleCRL`: `BatchInsertRevokedCertificates`
on the accumulated batch (on error only a log line; on success `processed`
grows by the batch length), followed — in both cases, the cache loop is not
under the success branch — by a cache write for every record of the batch
with `ingestCacheTTL`.  The `Option Nat` component is the failure oracle for
this batch. -/
def flushBatch (issuerNameStr : String) (s : IngestState)
    (p : List RevokedCertificate × Option Nat) : IngestState :=
  let s1 :=
    match BatchInsertRevokedCertificates p.2 s.store p.1 with
    | Except.error _ => s
    | Except.ok st2 => { s with store := st2, processed := s.processed + p.1.length }
  { s1 with
    cache := p.1.foldl
      (fun cm c =>
        SetCertificateStatus cm c.serial (cachedStatusOfRecord issuerNameStr c)
          ingestCacheTTL)
      s1.cache }

/-- Folds a list of (batch, failure-oracle) pairs through `flushBatch`. -/
def runIngestBatches (issuerNameStr : String) (s : IngestState)
    (bs : List (List RevokedCertificate × Option Nat)) : IngestState :=
  bs.foldl (flushBatch issuerNameStr) s

/-- The certificate loop of `ProcessSingleCRL`, literally: each parsed entry
is converted to a record and appended to the current batch; when the batch
reaches `batchSize` it is flushed and the batch restarts empty; a final
non-empty remainder is flushed after the loop.  `bi` numbers the flushes so
the failure oracle `F` can address individual batches. -/
def ingestLoop (issuerNameStr : String) (F : Nat → Option Nat) :
    List RevokedEntry → Nat → List RevokedCertificate → IngestState → IngestState
  | [], bi, batchAcc, s =>
    if batchAcc.isEmpty then s else flushBatch issuerNameStr s (batchAcc, F bi)
  | e :: rest, bi, batchAcc, s =>
    let acc2 := batchAcc ++ [entryToRecord issuerNameStr e]
    if batchSize ≤ acc2.length then
      ingestLoop issuerNameStr F rest (bi + 1) [] (flushBatch issuerNameStr s (acc2, F bi))
    else
      ingestLoop issuerNameStr F rest bi acc2 s

/-- The fetch-parse-persist body of `ProcessSingleCRL` from the point where
the CRL has been parsed: the whole certificate loop run on the decoded
entries.  (The `crl_info` upsert touches a separate table and is omitted;
the lease phase is modelled separately.) -/
def ProcessSingleCRLData (issuerNameStr : String) (F : Nat → Option Nat)
    (entries : List RevokedEntry) (s : IngestState) : IngestState :=
  ingestLoop issuerNameStr F entries 0 [] s

/-- The batches which the certificate loop hands to the Batch Writer, as a
standalone chunking function (same accumulate-and-flush discipline as
`ingestLoop`). -/
def crlBatchesGo : List RevokedCertificate → List RevokedCertificate →
    List (List RevokedCertificate)
  | acc, [] => if acc.isEmpty then [] else [acc]
  | acc, c :: rest =>
    let acc2 := acc ++ [c]
    if batchSize ≤ acc2.length then acc2 :: crlBatchesGo [] rest
    else crlBatchesGo acc2 rest

/-- Chunking of a full record list, starting from an empty batch. -/
def crlBatches (records : List RevokedCertificate) : List (List RevokedCertificate) :=
  crlBatchesGo [] records

/-- Follows the spec's words (claim C5): `floor(n/500)` full batches of 500
followed by one batch of `n mod 500` when that is nonzero. -/
def specBatchSizes (n : Nat) : List Nat :=
  List.replicate (n / batchSize) batchSize ++
    (if n % batchSize = 0 then [] else [n % batchSize])

/-- Last record with the given serial in one batch (`none` when absent):
the value the batch's upserts leave under that key. -/
def lastWriteBatch (b : List RevokedCertificate) (ser : String) : Option RevokedCertificate :=
  b.foldl (fun acc c => if ser = c.serial then some c else acc) none

/-- Last record with the given serial across the committing batches of a
run. -/
def lastWriteRun (bs : List (List RevokedCertificate × Option Nat)) (ser : String) :
    Option RevokedCertificate :=
  bs.foldl
    (fun acc p =>
      if batchOk p then
        match lastWriteBatch p.1 ser with
        | some c => some c
        | none => acc
      else acc)
    none

/-- `database.GetCertificateStatus`: no row means a not-revoked status with
every optional field absent; a row yields a revoked status whose reason text
is the `RevocationReasons` entry for the stored code (the Go map read gives
`""` for an absent key), overridden by the stored `reason_text` when that is
non-empty. -/
def GetCertificateStatusDB (st : Store) (serial : String) : CertificateStatus :=
  match st serial with
  | none =>
    { serial := serial, isRevoked := false, revocationDate := none, reason := none
      certificateAuthority := none }
  | some cert =>
    let tableText := (RevocationReasons cert.reason).getD ""
    let reasonText := if cert.reasonText ≠ "" then cert.reasonText else tableText
    { serial := serial, isRevoked := true, revocationDate := some cert.revocationDate
      reason := some reasonText, certificateAuthority := some cert.certificateAuthority }

/-- Outcome of one `CheckCertificateStatus` call: the returned status (or
the propagated store error), the cache afterwards, and the hit/miss counter
increments the call performed. -/
structure QueryResult where
  status : Except Unit CertificateStatus
  cache : CacheMap
  cacheHits : Nat
  cacheMisses : Nat

/-- `CheckCertificateStatus`: normalizes the serial with `normalizeSerial`,
consults the cache when a client is configured (a cache read error is only
logged and counts as a miss), then reads the durable store — a store error
is returned to the caller — and, when a client is configured, writes the
fresh status back with the revocation-dependent TTL. -/
def CheckCertificateStatus (redisConfigured : Bool) (cacheGetErr : Bool)
    (storeErr : Bool) (cm : CacheMap) (st : Store) (serialInput : String) : QueryResult :=
  let serial := normalizeSerial serialInput
  match (if redisConfigured && !cacheGetErr then (cm serial).map Prod.fst else none) with
  | some status => { status := Except.ok status, cache := cm, cacheHits := 1, cacheMisses := 0 }
  | none =>
    let misses := if redisConfigured then 1 else 0
    if storeErr then
      { status := Except.error (), cache := cm, cacheHits := 0, cacheMisses := misses }
    else
      let status := GetCertificateStatusDB st serial
      let cm2 :=
        if redisConfigured then
          SetCertificateStatus cm serial status (queryCacheTTL status.isRevoked)
        else cm
      { status := Except.ok status, cache := cm2, cacheHits := 0, cacheMisses := misses }

/-! ### The processing lease, as a two-thread interleaving machine

`ProcessSingleCRL` brackets its work in `IsCRLProcessing` (read the
`crl_processing:<url>` key) and `SetCRLProcessing` (write it as a plain
`SET`).  For two concurrent calls on the same source the shared Redis key is
a boolean register and each Redis command is one atomic step; the
fetch/parse/persist sequence between acquire and release is collapsed into
a single `work` step that performs the call's store writes, which is enough
to settle whether two ingestions can be in flight at once. -/

/-- Program counter of one `ProcessSingleCRL` call, restricted to its lease
interactions. -/
inductive LeasePC where
  | checkLease
  | setLease
  | work
  | clearLease
  | done
deriving DecidableEq, Repr

/-- One call's state: where it is, whether it observed the lease as held
(and returned as a successful no-op), and how many store writes it made. -/
structure ThreadState where
  pc : LeasePC
  skipped : Bool
  storeWrites : Nat
deriving DecidableEq, Repr

/-- Shared state: the `crl_processing:<url>` register and both calls. -/
structure LeaseSys where
  lease : Bool
  t0 : ThreadState
  t1 : ThreadState
deriving DecidableEq, Repr

/-- One atomic step of a call: `checkLease` is `IsCRLProcessing` (observing
`true` makes the call return nil at once); `setLease` is
`SetCRLProcessing(url, true)`; `work` is the fetch/parse/persist block;
`clearLease` is the deferred `SetCRLProcessing(url, false)`. -/
def stepThread (lease : Bool) (t : ThreadState) : Bool × ThreadState :=
  match t.pc with
  | LeasePC.checkLease =>
    if lease then (lease, { t with pc := LeasePC.done, skipped := true })
    else (lease, { t with pc := LeasePC.setLease })
  | LeasePC.setLease => (true, { t with pc := LeasePC.work })
  | LeasePC.work => (lease, { t with pc := LeasePC.clearLease, storeWrites := t.storeWrites + 1 })
  | LeasePC.clearLease => (false, { t with pc := LeasePC.done })
  | LeasePC.done => (lease, t)

/-- Scheduler step: `false` advances call 0, `true` advances call 1. -/
def leaseStep (s : LeaseSys) (i : Bool) : LeaseSys :=
  if i then
    let r := stepThread s.lease s.t1
    { s with lease := r.1, t1 := r.2 }
  else
    let r := stepThread s.lease s.t0
    { s with lease := r.1, t0 := r.2 }

/-- Runs a schedule from a state. -/
def leaseRun (s : LeaseSys) (sched : List Bool) : LeaseSys :=
  sched.foldl leaseStep s

/-- Both calls about to start, lease free. -/
def leaseStart : LeaseSys :=
  { lease := false
    t0 := { pc := LeasePC.checkLease, skipped := false, storeWrites := 0 }
    t1 := { pc := LeasePC.checkLease, skipped := false, storeWrites := 0 } }

/-- Invariant for one call: a skipped call is finished with zero store
writes, and a call that has not yet passed its `setLease` step has zero
store writes. -/
def threadInv (t : ThreadState) : Prop :=
  (t.skipped = true → t.storeWrites = 0 ∧ t.pc = LeasePC.done) ∧
    ((t.pc = LeasePC.checkLease ∨ t.pc = LeasePC.setLease) → t.storeWrites = 0)

/-! ### The lease phase of a single sequential call (C10) -/

/-- Responses of the Redis client during the lease phase of one call:
what `IsCRLProcessing` returns, and whether `SetCRLProcessing(url, true)`
succeeds. -/
structure RedisLeaseOracle where
  checkRes : Except Unit Bool
  setOk : Bool

/-- What the lease phase decided: whether the call goes on to download,
parse and persist; whether the processing marker was actually set; whether
the call returned early as a no-op. -/
structure LeasePhaseResult where
  proceeds : Bool
  leaseHeld : Bool
  skippedCall : Bool
deriving DecidableEq, Repr

/-- The opening block of `ProcessSingleCRL`: with no Redis client the whole
block is skipped; otherwise a check error is only logged and the call falls
through to `SetCRLProcessing(url, true)` — exactly as when the check
reports not-processing — while an observed `true` returns nil at once. -/
def processSingleLeasePhase (redis : Option RedisLeaseOracle) : LeasePhaseResult :=
  match redis with
  | none => { proceeds := true, leaseHeld := false, skippedCall := false }
  | some o =>
    match o.checkRes with
    | Except.ok true => { proceeds := false, leaseHeld := false, skippedCall := true }
    | Except.ok false => { proceeds := true, leaseHeld := o.setOk, skippedCall := false }
    | Except.error _ => { proceeds := true, leaseHeld := o.setOk, skippedCall := false }

/-! ### `ProcessAllCRLs` (C7) -/

/-- What happens to one source in a run: the download fails, the parse
fails, or the CRL decodes to an issuer plus entry list (with a per-batch
persist-failure oracle for the Batch Writer). -/
inductive SourceOutcome where
  | fetchErr
  | parseErr
  | okCRL (issuerNameStr : String) (entries : List RevokedEntry) (F : Nat → Option Nat)

/-- The error value `ProcessSingleCRL` returns for one source (persist
errors are only logged, so a decoded CRL always yields nil). -/
def sourceResult (o : SourceOutcome) : Except Unit Unit :=
  match o with
  | SourceOutcome.fetchErr => Except.error ()
  | SourceOutcome.parseErr => Except.error ()
  | SourceOutcome.okCRL _ _ _ => Except.ok ()

/-- The effect of one source on the shared state: a fetch or parse error
aborts that source before any write; a decoded CRL runs the certificate
loop. -/
def sourceEffect (o : SourceOutcome) (s : IngestState) : IngestState :=
  match o with
  | SourceOutcome.fetchErr => s
  | SourceOutcome.parseErr => s
  | SourceOutcome.okCRL issuerNameStr entries F => ProcessSingleCRLData issuerNameStr F entries s

/-- `ProcessAllCRLs`: a registry-load failure is returned; otherwise every
listed source is processed — each per-source error is only logged — and the
call returns nil.  The goroutine fan-out is modelled by its sequential
serialization: the per-source results and effects are collected in registry
order. -/
def ProcessAllCRLs (loadRes : Except Unit (List String))
    (outcome : String → SourceOutcome) (s : IngestState) :
    Except Unit (List (String × Except Unit Unit) × IngestState) :=
  match loadRes with
  | Except.error _ => Except.error ()
  | Except.ok urls =>
    Except.ok
      (urls.foldl
        (fun acc u => (acc.1 ++ [(u, sourceResult (outcome u))], sourceEffect (outcome u) acc.2))
        ([], s))

/-! ### Concrete sample inputs -/

/-- A CRL entry with serial 255 whose reason extension carries the byte 1
(keyCompromise, a key of the `RevocationReasons` table). -/
def entryKC : RevokedEntry := ⟨255, 100, [⟨reasonOid, [1]⟩]⟩

/-- A CRL entry with serial 256 whose reason extension carries the byte 7,
which is not a key of the `RevocationReasons` table. -/
def entryUnrec : RevokedEntry := ⟨256, 100, [⟨reasonOid, [7]⟩]⟩

/-- Empty store, empty cache, zero counter. -/
def ingestStart : IngestState := ⟨emptyStore, emptyCache, 0⟩

/-- A fully successful single-CRL run over the two sample entries. -/
def sampleRun : IngestState :=
  ProcessSingleCRLData "CA" (fun _ => none) [entryKC, entryUnrec] ingestStart

/-- A single-CRL run whose only batch fails at its first statement. -/
def failedRun : IngestState :=
  ProcessSingleCRLData "CA" (fun _ => some 0) [entryKC] ingestStart


/-- Selects one of the two concurrent calls of the lease machine. -/
def threadOf (s : LeaseSys) (b : Bool) : ThreadState := if b then s.t1 else s.t0

/-! ## Theorems -/

theorem txExecAll_none (certs : List RevokedCertificate) :
    ∀ (st : Store) (i : Nat), txExecAll i none st certs =
      Except.ok (certs.foldl upsertCert st) := by
  induction certs with
  | nil => intro st i; rfl
  | cons c cs ih =>
    intro st i
    simp only [txExecAll, List.foldl]
    exact ih (upsertCert st c) (i + 1)

theorem txExecAll_ge (certs : List RevokedCertificate) (k : Nat) :
    ∀ (st : Store) (i : Nat), i + certs.length ≤ k →
      txExecAll i (some k) st certs = Except.ok (certs.foldl upsertCert st) := by
  induction certs with
  | nil => intro st i _; rfl
  | cons c cs ih =>
    intro st i h
    simp only [List.length_cons] at h
    have hne : ¬ (some k = some (i : Nat)) := by
      intro hc
      have hki := Option.some.inj hc
      omega
    simp only [txExecAll, List.foldl, if_neg hne]
    exact ih (upsertCert st c) (i + 1) (by omega)

theorem txExecAll_lt (certs : List RevokedCertificate) (k : Nat) :
    ∀ (st : Store) (i : Nat), i ≤ k → k < i + certs.length →
      txExecAll i (some k) st certs = Except.error () := by
  induction certs with
  | nil =>
    intro st i h1 h2
    simp only [List.length_nil] at h2
    omega
  | cons c cs ih =>
    intro st i h1 h2
    by_cases hk : k = i
    · simp [txExecAll, hk]
    · have hne : ¬ (some k = some (i : Nat)) := by
        intro hc
        exact hk (Option.some.inj hc)
      simp only [txExecAll, if_neg hne]
      exact ih (upsertCert st c) (i + 1) (by omega) (by
        simp only [List.length_cons] at h2; omega)

/-- Characterization of a batch insert: it commits all of its upserts when
`batchOk` holds and reports an error (leaving the caller's store untouched)
otherwise. -/
theorem batchInsert_eq (failAt : Option Nat) (st : Store)
    (certs : List RevokedCertificate) :
    BatchInsertRevokedCertificates failAt st certs =
      if batchOk (certs, failAt) then Except.ok (certs.foldl upsertCert st)
      else Except.error () := by
  unfold BatchInsertRevokedCertificates batchOk
  by_cases hempty : certs.isEmpty
  · have : certs = [] := List.isEmpty_iff.mp hempty
    subst this
    simp
  · simp only [hempty, if_neg, Bool.false_or]
    cases failAt with
    | none =>
      simp [txExecAll_none certs st 0]
    | some k =>
      by_cases hk : certs.length ≤ k
      · rw [txExecAll_ge certs k st 0 (by omega)]
        simp [hk]
      · rw [txExecAll_lt certs k st 0 (by omega) (by omega)]
        simp [hk]

/-- The loop and the standalone chunking agree: `ingestLoop` is the fold of
`flushBatch` over the enumerated chunks. -/
theorem ingestLoop_eq_runIngestBatches (issuerNameStr : String) (F : Nat → Option Nat) :
    ∀ (entries : List RevokedEntry) (acc : List RevokedCertificate) (bi : Nat)
      (s : IngestState),
      ingestLoop issuerNameStr F entries bi acc s =
        runIngestBatches issuerNameStr s
          ((List.enumFrom bi
              (crlBatchesGo acc (entries.map (entryToRecord issuerNameStr)))).map
            (fun p => (p.2, F p.1))) := by
  intro entries
  induction entries with
  | nil =>
    intro acc bi s
    by_cases h : acc.isEmpty
    · simp [ingestLoop, crlBatchesGo, h, runIngestBatches, List.enumFrom]
    · simp [ingestLoop, crlBatchesGo, h, runIngestBatches, List.enumFrom]
  | cons e rest ih =>
    intro acc bi s
    simp only [ingestLoop, List.map_cons, crlBatchesGo]
    by_cases h : batchSize ≤ (acc ++ [entryToRecord issuerNameStr e]).length
    · simp only [h, if_true, ih]
      simp [runIngestBatches, List.enumFrom]
    · simp only [h, if_false, ih]

/-- Adding one full batch to the front of the size profile. -/
theorem specBatchSizes_add (m : Nat) :
    specBatchSizes (batchSize + m) = batchSize :: specBatchSizes m := by
  have h1 : (500 + m) / 500 = m / 500 + 1 := by omega
  have h2 : (500 + m) % 500 = m % 500 := by omega
  simp [specBatchSizes, batchSize, h1, h2, List.replicate_succ]

/-- The chunk lengths realize the spec's size profile. -/
theorem crlBatchesGo_lengths :
    ∀ (rest acc : List RevokedCertificate), acc.length < batchSize →
      (crlBatchesGo acc rest).map List.length = specBatchSizes (acc.length + rest.length) := by
  intro rest
  induction rest with
  | nil =>
    intro acc hacc
    by_cases h : acc.isEmpty
    · have : acc = [] := List.isEmpty_iff.mp h
      subst this
      simp [crlBatchesGo, specBatchSizes, batchSize]
    · have hlen : acc.length % batchSize = acc.length := Nat.mod_eq_of_lt hacc
      have hdiv : acc.length / batchSize = 0 := Nat.div_eq_of_lt hacc
      have hne : acc.length ≠ 0 := by
        intro hc
        exact h (List.isEmpty_iff.mpr (List.length_eq_zero.mp hc))
      simp [crlBatchesGo, h, specBatchSizes, hlen, hdiv, hne]
  | cons c rest ih =>
    intro acc hacc
    have hlen2 : (acc ++ [c]).length = acc.length + 1 := by simp
    by_cases h : batchSize ≤ (acc ++ [c]).length
    · have hfull : (acc ++ [c]).length = batchSize := by omega
      have htail := ih [] (by simp [batchSize])
      rw [show crlBatchesGo acc (c :: rest) = (acc ++ [c]) :: crlBatchesGo [] rest from by
        simp only [crlBatchesGo]
        rw [if_pos h]]
      rw [List.map_cons, hfull, List.length_cons,
        show acc.length + (rest.length + 1) = batchSize + rest.length from by omega,
        specBatchSizes_add]
      congr 1
      simpa using htail
    · have hlt : (acc ++ [c]).length < batchSize := by omega
      have ih2 := ih (acc ++ [c]) hlt
      rw [show crlBatchesGo acc (c :: rest) = crlBatchesGo (acc ++ [c]) rest from by
        simp only [crlBatchesGo]
        rw [if_neg h]]
      rw [ih2, hlen2, List.length_cons]
      congr 1
      omega

theorem foldl_upsert_lookup (b : List RevokedCertificate) (st : Store) (ser : String) :
    (b.foldl upsertCert st) ser =
      match lastWriteBatch b ser with
      | some c => some c
      | none => st ser := by
  induction b using List.reverseRecOn with
  | nil => simp [lastWriteBatch]
  | append_singleton l c ih =>
    rw [List.foldl_append]
    simp only [List.foldl_cons, List.foldl_nil, lastWriteBatch, List.foldl_append]
    by_cases h : ser = c.serial
    · simp [upsertCert, h]
    · simp only [if_neg h, upsertCert]
      exact ih

theorem flushBatch_store (issuerNameStr : String) (s : IngestState)
    (p : List RevokedCertificate × Option Nat) :
    (flushBatch issuerNameStr s p).store =
      if batchOk p then p.1.foldl upsertCert s.store else s.store := by
  unfold flushBatch
  rw [show p = (p.1, p.2) from rfl, batchInsert_eq]
  by_cases hb : batchOk (p.1, p.2) <;> simp [hb]

theorem flushBatch_processed (issuerNameStr : String) (s : IngestState)
    (p : List RevokedCertificate × Option Nat) :
    (flushBatch issuerNameStr s p).processed =
      if batchOk p then s.processed + p.1.length else s.processed := by
  unfold flushBatch
  rw [show p = (p.1, p.2) from rfl, batchInsert_eq]
  by_cases hb : batchOk (p.1, p.2) <;> simp [hb]

theorem flushBatch_cache (issuerNameStr : String) (s : IngestState)
    (p : List RevokedCertificate × Option Nat) :
    (flushBatch issuerNameStr s p).cache =
      p.1.foldl
        (fun cm c =>
          SetCertificateStatus cm c.serial (cachedStatusOfRecord issuerNameStr c)
            ingestCacheTTL)
        s.cache := by
  unfold flushBatch
  rw [show p = (p.1, p.2) from rfl, batchInsert_eq]
  by_cases hb : batchOk (p.1, p.2) <;> simp [hb]

/-- Pointwise description of the durable store after a run: the last write
from a committing batch wins; a key never written keeps its prior row. -/
theorem runIngestBatches_store (issuerNameStr : String)
    (bs : List (List RevokedCertificate × Option Nat)) (s : IngestState) (ser : String) :
    (runIngestBatches issuerNameStr s bs).store ser =
      match lastWriteRun bs ser with
      | some c => some c
      | none => s.store ser := by
  induction bs using List.reverseRecOn with
  | nil => simp [runIngestBatches, lastWriteRun]
  | append_singleton l p ih =>
    unfold runIngestBatches at *
    rw [List.foldl_append, List.foldl_cons, List.foldl_nil, flushBatch_store]
    unfold lastWriteRun at *
    rw [List.foldl_append, List.foldl_cons, List.foldl_nil]
    by_cases hb : batchOk p
    · rw [if_pos hb, if_pos hb, foldl_upsert_lookup]
      cases hlw : lastWriteBatch p.1 ser with
      | some c => simp
      | none => simpa using ih
    · rw [if_neg hb, if_neg hb]
      exact ih

/-- Failed batches contribute nothing: for the durable store, a run behaves
exactly like the run restricted to its committing batches. -/
theorem lastWriteRun_filter (bs : List (List RevokedCertificate × Option Nat))
    (ser : String) :
    lastWriteRun bs ser = lastWriteRun (bs.filter (fun p => batchOk p)) ser := by
  induction bs using List.reverseRecOn with
  | nil => rfl
  | append_singleton l p ih =>
    unfold lastWriteRun at *
    rw [List.foldl_append, List.foldl_cons, List.foldl_nil, List.filter_append]
    by_cases hb : batchOk p
    · simp only [List.filter_cons, hb, if_pos, List.filter_nil, List.foldl_append,
        List.foldl_cons, List.foldl_nil]
      rw [ih]
    · rw [if_neg hb, ih]
      have h0 : ([p].filter (fun q => batchOk q)) = [] := by simp [hb]
      rw [h0, List.append_nil]

/-- The `processed` counter accumulates the lengths of the committing
batches. -/
theorem runIngestBatches_processed (issuerNameStr : String)
    (bs : List (List RevokedCertificate × Option Nat)) (s : IngestState) :
    (runIngestBatches issuerNameStr s bs).processed =
      s.processed + ((bs.filter (fun p => batchOk p)).map (fun p => p.1.length)).sum := by
  induction bs using List.reverseRecOn with
  | nil => simp [runIngestBatches]
  | append_singleton l p ih =>
    unfold runIngestBatches at *
    rw [List.foldl_append, List.foldl_cons, List.foldl_nil, flushBatch_processed,
      List.filter_append]
    by_cases hb : batchOk p
    · simp only [List.filter_cons, hb, if_pos, List.filter_nil, List.map_append,
        List.sum_append, ih]
      simp
      omega
    · rw [if_neg hb, ih]
      have h0 : ([p].filter (fun q => batchOk q)) = [] := by simp [hb]
      rw [h0, List.append_nil]

/-- The second component projection of an enumeration gives back the list. -/
theorem enumFrom_map_snd {α : Type} : ∀ (i : Nat) (l : List α),
    (List.enumFrom i l).map Prod.snd = l := by
  intro i l
  induction l generalizing i with
  | nil => rfl
  | cons a l ih => simp [List.enumFrom, ih]

/-- The size profile sums to the original length. -/
theorem specBatchSizes_sum (n : Nat) : (specBatchSizes n).sum = n := by
  simp only [specBatchSizes, batchSize, List.sum_append, List.sum_replicate, smul_eq_mul]
  by_cases h : n % 500 = 0
  · rw [if_pos h]
    simp only [List.sum_nil]
    omega
  · rw [if_neg h]
    simp only [List.sum_cons, List.sum_nil]
    omega

theorem stepThread_inv (lease : Bool) (t : ThreadState) (h : threadInv t) :
    threadInv (stepThread lease t).2 := by
  obtain ⟨pc, sk, w⟩ := t
  obtain ⟨h1, h2⟩ := h
  simp only [threadInv] at h1 h2 ⊢
  cases pc <;> cases lease <;> simp_all [stepThread]

theorem leaseRun_inv (sched : List Bool) :
    ∀ (s : LeaseSys), threadInv s.t0 → threadInv s.t1 →
      threadInv (leaseRun s sched).t0 ∧ threadInv (leaseRun s sched).t1 := by
  induction sched with
  | nil => intro s h0 h1; exact ⟨h0, h1⟩
  | cons i rest ih =>
    intro s h0 h1
    have hstep : threadInv (leaseStep s i).t0 ∧ threadInv (leaseStep s i).t1 := by
      cases i with
      | false => exact ⟨stepThread_inv s.lease s.t0 h0, h1⟩
      | true => exact ⟨h0, stepThread_inv s.lease s.t1 h1⟩
    exact ih (leaseStep s i) hstep.1 hstep.2

theorem processAll_foldl (outcome : String → SourceOutcome) :
    ∀ (urls : List String) (acc : List (String × Except Unit Unit)) (s : IngestState),
      urls.foldl
          (fun acc u => (acc.1 ++ [(u, sourceResult (outcome u))], sourceEffect (outcome u) acc.2))
          (acc, s) =
        (acc ++ urls.map (fun u => (u, sourceResult (outcome u))),
          urls.foldl (fun st u => sourceEffect (outcome u) st) s) := by
  intro urls
  induction urls with
  | nil => intro acc s; simp
  | cons u rest ih =>
    intro acc s
    simp only [List.foldl_cons, List.map_cons, ih]
    simp

/-- Every batch paired with a `none` oracle commits. -/
theorem batchOk_none (b : List RevokedCertificate) : batchOk (b, none) = true := by
  by_cases h : b.isEmpty <;> simp [batchOk, h]

/-- Pointwise description of the cache after one batch's cache loop: the
last record of the batch bearing the serial wins; other keys are
untouched. -/
theorem foldl_setStatus_lookup (issuerNameStr : String) (b : List RevokedCertificate)
    (cm : CacheMap) (ser : String) :
    (b.foldl
        (fun cm c =>
          SetCertificateStatus cm c.serial (cachedStatusOfRecord issuerNameStr c)
            ingestCacheTTL)
        cm) ser =
      match lastWriteBatch b ser with
      | some c => some (cachedStatusOfRecord issuerNameStr c, ingestCacheTTL)
      | none => cm ser := by
  induction b using List.reverseRecOn with
  | nil => simp [lastWriteBatch]
  | append_singleton l c ih =>
    rw [List.foldl_append]
    simp only [List.foldl_cons, List.foldl_nil, lastWriteBatch, List.foldl_append]
    by_cases h : ser = c.serial
    · simp [SetCertificateStatus, h]
    · simp only [if_neg h, SetCertificateStatus]
      exact ih

/-- When every batch of a run commits, the run preserves the invariant
"every cached serial has a row in the durable store". -/
theorem runIngestBatches_cache_store (issuerNameStr : String) :
    ∀ (bs : List (List RevokedCertificate × Option Nat)) (s : IngestState),
      (∀ p ∈ bs, batchOk p = true) →
      (∀ ser, s.cache ser ≠ none → s.store ser ≠ none) →
      ∀ ser, (runIngestBatches issuerNameStr s bs).cache ser ≠ none →
        (runIngestBatches issuerNameStr s bs).store ser ≠ none := by
  intro bs
  induction bs with
  | nil => intro s _ hinv ser; exact hinv ser
  | cons p rest ih =>
    intro s hok hinv ser
    have hbok : batchOk p = true := hok p (List.mem_cons_self p rest)
    have hstep : ∀ ser2, (flushBatch issuerNameStr s p).cache ser2 ≠ none →
        (flushBatch issuerNameStr s p).store ser2 ≠ none := by
      intro ser2 hc
      rw [flushBatch_cache, foldl_setStatus_lookup] at hc
      rw [flushBatch_store, if_pos hbok, foldl_upsert_lookup]
      cases hlw : lastWriteBatch p.1 ser2 with
      | some c => simp
      | none =>
        rw [hlw] at hc
        simp only at hc ⊢
        exact hinv ser2 hc
    have hrw : runIngestBatches issuerNameStr s (p :: rest) =
        runIngestBatches issuerNameStr (flushBatch issuerNameStr s p) rest := rfl
    rw [hrw]
    exact ih (flushBatch issuerNameStr s p)
      (fun q hq => hok q (List.mem_cons_of_mem p hq)) hstep ser

/-! ## Claims -/

/-- C1, counterexample: with both calls' `IsCRLProcessing` reads scheduled
before either `SetCRLProcessing(true)` write, both concurrent
`ProcessSingleCRL` calls on the same source perform the fetch/parse/persist
sequence and neither observes the lease — refuting "at most one performs
the sequence". -/
theorem lease_race_both_calls_ingest :
    0 < (leaseRun leaseStart [false, true, false, false, false, true, true, true]).t0.storeWrites
  ∧ 0 < (leaseRun leaseStart [false, true, false, false, false, true, true, true]).t1.storeWrites
  ∧ (leaseRun leaseStart [false, true, false, false, false, true, true, true]).t0.skipped = false
  ∧ (leaseRun leaseStart [false, true, false, false, false, true, true, true]).t1.skipped = false := by
  decide

/-- C1, amended: a call that does observe the `ProcessingLease` as held
performs no store writes and finishes (returning success as a no-op); but
the check-then-set pair is not atomic, so mutual exclusion holds only on
schedules where one call's check sees the other's set (see the
counterexample for the remaining schedules). -/
theorem lease_observed_skip_no_writes (sched : List Bool) (b : Bool)
    (h : (threadOf (leaseRun leaseStart sched) b).skipped = true) :
    (threadOf (leaseRun leaseStart sched) b).storeWrites = 0
  ∧ (threadOf (leaseRun leaseStart sched) b).pc = LeasePC.done := by
  have h0 : threadInv leaseStart.t0 := ⟨fun hc => Bool.noConfusion hc, fun _ => rfl⟩
  have h1 : threadInv leaseStart.t1 := ⟨fun hc => Bool.noConfusion hc, fun _ => rfl⟩
  have hinv := leaseRun_inv sched leaseStart h0 h1
  cases b with
  | false => exact hinv.1.1 h
  | true => exact hinv.2.1 h

/-- C1, witness: on the schedule where call 0 checks and sets first, call 1
observes the lease, skips, and makes no store writes. -/
theorem lease_observed_skip_no_writes_witness :
    (threadOf (leaseRun leaseStart [false, false, true]) true).skipped = true
  ∧ ((threadOf (leaseRun leaseStart [false, false, true]) true).storeWrites = 0
     ∧ (threadOf (leaseRun leaseStart [false, false, true]) true).pc = LeasePC.done) :=
  ⟨by decide, lease_observed_skip_no_writes [false, false, true] true (by decide)⟩

/-- C2, counterexample: when the only batch's insert fails, the record's
status is still written to the cache while no row reaches the durable store
— the cache write is not conditional on successful persistence. -/
theorem cache_written_despite_failed_batch :
    failedRun.cache "255" =
      some (⟨"255", true, some 100, some "", some "CA"⟩, ingestCacheTTL)
  ∧ failedRun.store "255" = none := by
  decide

/-- C2, amended: the coordinator pushes each batch's records into the cache
after the insert attempt whether or not the batch persisted; when every
batch of the run commits, the invariant "every cached serial has a record
in the durable store" is preserved. -/
theorem cache_consistent_when_batches_commit (issuerNameStr : String)
    (entries : List RevokedEntry) (s : IngestState)
    (hinv : ∀ ser, s.cache ser ≠ none → s.store ser ≠ none) :
    ∀ ser,
      (ProcessSingleCRLData issuerNameStr (fun _ => none) entries s).cache ser ≠ none →
      (ProcessSingleCRLData issuerNameStr (fun _ => none) entries s).store ser ≠ none := by
  unfold ProcessSingleCRLData
  rw [ingestLoop_eq_runIngestBatches]
  apply runIngestBatches_cache_store
  · intro p hp
    obtain ⟨q, hq, rfl⟩ := List.mem_map.mp hp
    exact batchOk_none q.2
  · exact hinv

/-- C2, witness: the amended statement applied to a fully successful
one-entry run from the empty state. -/
theorem cache_consistent_when_batches_commit_witness :
    (∀ ser, ingestStart.cache ser ≠ none → ingestStart.store ser ≠ none)
  ∧ (∀ ser,
      (ProcessSingleCRLData "CA" (fun _ => none) [entryKC] ingestStart).cache ser ≠ none →
      (ProcessSingleCRLData "CA" (fun _ => none) [entryKC] ingestStart).store ser ≠ none) :=
  ⟨fun _ h => absurd rfl h,
   cache_consistent_when_batches_commit "CA" [entryKC] ingestStart (fun _ h => absurd rfl h)⟩

/-- C3: `normalizeSerial` is the identity — contradicting its own doc
comment — so a caller's hexadecimal rendering "FF" of the serial 255 is not
mapped to the parser's canonical decimal key "255": the store row ingested
under "255" is reported not revoked when queried as "FF", while the decimal
spelling finds it. -/
theorem normalize_identity_misses_parser_key :
    normalizeSerial "FF" = "FF"
  ∧ formatSerial 255 = "255"
  ∧ (CheckCertificateStatus true false false emptyCache sampleRun.store "FF").status =
      Except.ok ⟨"FF", false, none, none, none⟩
  ∧ (CheckCertificateStatus true false false emptyCache sampleRun.store "255").status =
      Except.ok ⟨"255", true, some 100, some "Compromiso de clave", some "CA"⟩ :=
  ⟨rfl, rfl, rfl, rfl⟩

/-- C4: the table lookup in the ingestion loop assigns to a shadowed
variable, so the persisted `reasonText` is always empty: a recognized code
(1) is cached with reason text "" instead of the table text, and a
cache-hit `CheckCertificateStatus` returns that ""; an unrecognized code
byte (7) is stored as reason 7 — not defaulted to the "unspecified" code 0
— and its store-path status carries reason text "" rather than any table
text. -/
theorem reason_text_shadowed :
    (entryToRecord "CA" entryKC).reason = 1
  ∧ (entryToRecord "CA" entryKC).reasonText = ""
  ∧ RevocationReasons 1 = some "Compromiso de clave"
  ∧ sampleRun.cache "255" = some (⟨"255", true, some 100, some "", some "CA"⟩, ingestCacheTTL)
  ∧ (CheckCertificateStatus true false false sampleRun.cache sampleRun.store "255").status =
      Except.ok ⟨"255", true, some 100, some "", some "CA"⟩
  ∧ (entryToRecord "CA" entryUnrec).reason = 7
  ∧ RevocationReasons 7 = none
  ∧ GetCertificateStatusDB sampleRun.store "256" = ⟨"256", true, some 100, some "", some "CA"⟩ :=
  ⟨rfl, rfl, rfl, rfl, rfl, rfl, rfl, rfl⟩

/-- C5: the certificate loop hands the Batch Writer `floor(n/500)` full
batches of 500 followed by one batch of `n mod 500` when that is nonzero;
when every batch commits, exactly `n` records are counted as persisted; and
1203 entries yield batches of 500, 500 and 203. -/
theorem batching_profile_and_count (es : List RevokedEntry) (issuerNameStr : String)
    (s : IngestState) :
    (crlBatches (es.map (entryToRecord issuerNameStr))).map List.length =
      specBatchSizes es.length
  ∧ (ProcessSingleCRLData issuerNameStr (fun _ => none) es s).processed =
      s.processed + es.length
  ∧ (crlBatches (List.replicate 1203 (entryToRecord issuerNameStr entryKC))).map
      List.length = [500, 500, 203] := by
  have h1 : (crlBatches (es.map (entryToRecord issuerNameStr))).map List.length =
      specBatchSizes es.length := by
    unfold crlBatches
    rw [crlBatchesGo_lengths _ [] (by simp [batchSize])]
    simp
  refine ⟨h1, ?_, ?_⟩
  · unfold ProcessSingleCRLData
    rw [ingestLoop_eq_runIngestBatches, runIngestBatches_processed]
    have hfil :
        ((List.enumFrom 0
              (crlBatchesGo [] (es.map (entryToRecord issuerNameStr)))).map
            (fun p => (p.2, (fun _ => (none : Option Nat)) p.1))).filter
          (fun p => batchOk p) =
        (List.enumFrom 0
            (crlBatchesGo [] (es.map (entryToRecord issuerNameStr)))).map
          (fun p => (p.2, (fun _ => (none : Option Nat)) p.1)) := by
      apply List.filter_eq_self.mpr
      intro p hp
      obtain ⟨q, hq, rfl⟩ := List.mem_map.mp hp
      exact batchOk_none q.2
    rw [hfil, List.map_map]
    have hmap :
        ((fun p : List RevokedCertificate × Option Nat => p.1.length) ∘
            (fun p : Nat × List RevokedCertificate =>
              (p.2, (fun _ => (none : Option Nat)) p.1))) =
          (List.length ∘ Prod.snd) := rfl
    rw [hmap, ← List.map_map, enumFrom_map_snd]
    rw [show (crlBatchesGo [] (es.map (entryToRecord issuerNameStr))).map List.length =
        specBatchSizes es.length from h1]
    rw [specBatchSizes_sum]
  · rw [show crlBatches (List.replicate 1203 (entryToRecord issuerNameStr entryKC)) =
      crlBatchesGo [] (List.replicate 1203 (entryToRecord issuerNameStr entryKC)) from rfl]
    rw [crlBatchesGo_lengths _ [] (by simp [batchSize])]
    simp only [List.length_nil, List.length_replicate, Nat.zero_add]
    decide

/-- C6: a batch is atomic — a statement failure at any index makes the whole
insert report an error with no upsert published, while a run with no
failure commits every upsert — and for the multi-batch run the durable
store is exactly what the committing batches alone produce: a failed batch
neither rolls back earlier committed batches nor stops later ones. -/
theorem batch_atomic_commit_isolated_failure (st : Store)
    (certs : List RevokedCertificate) (k : Nat) (hk : k < certs.length) :
    BatchInsertRevokedCertificates (some k) st certs = Except.error ()
  ∧ BatchInsertRevokedCertificates none st certs = Except.ok (certs.foldl upsertCert st)
  ∧ ∀ (issuerNameStr : String) (s : IngestState)
      (bs : List (List RevokedCertificate × Option Nat)),
      (runIngestBatches issuerNameStr s bs).store =
        (runIngestBatches issuerNameStr s (bs.filter (fun p => batchOk p))).store := by
  refine ⟨?_, ?_, ?_⟩
  · have hne : certs ≠ [] := by
      intro hc
      subst hc
      simp at hk
    have h1 : certs.isEmpty = false := by
      cases hce : certs.isEmpty
      · rfl
      · exact absurd (List.isEmpty_iff.mp hce) hne
    have hbad : batchOk (certs, some k) = false := by
      simp only [batchOk, h1, Bool.false_or]
      rw [decide_eq_false_iff_not]
      omega
    rw [batchInsert_eq, hbad]
    simp
  · rw [batchInsert_eq, batchOk_none]
    simp
  · intro issuerNameStr s bs
    funext ser
    rw [runIngestBatches_store, runIngestBatches_store, ← lastWriteRun_filter]

/-- C6, witness: a single-record batch failing at index 0 errors atomically;
the same batch with no failure commits; and the run-level isolation holds. -/
theorem batch_atomic_commit_isolated_failure_witness :
    0 < [entryToRecord "CA" entryKC].length
  ∧ (BatchInsertRevokedCertificates (some 0) emptyStore [entryToRecord "CA" entryKC] =
        Except.error ()
     ∧ BatchInsertRevokedCertificates none emptyStore [entryToRecord "CA" entryKC] =
        Except.ok ([entryToRecord "CA" entryKC].foldl upsertCert emptyStore)
     ∧ ∀ (issuerNameStr : String) (s : IngestState)
        (bs : List (List RevokedCertificate × Option Nat)),
        (runIngestBatches issuerNameStr s bs).store =
          (runIngestBatches issuerNameStr s (bs.filter (fun p => batchOk p))).store) :=
  ⟨by decide,
   batch_atomic_commit_isolated_failure emptyStore [entryToRecord "CA" entryKC] 0 (by decide)⟩

/-- C7: with the registry loaded, `ProcessAllCRLs` returns nil whatever each
source's outcome is: the result is `ok`, every listed source appears in the
result list with an entry determined only by its own outcome, and the final
state is the fold of the per-source effects — a failing subset leaves every
other source's entry and effect unchanged. -/
theorem processAll_returns_ok_sources_isolated (urls : List String)
    (outcome : String → SourceOutcome) (s : IngestState) :
    ProcessAllCRLs (Except.ok urls) outcome s =
      Except.ok (urls.map (fun u => (u, sourceResult (outcome u))),
        urls.foldl (fun st u => sourceEffect (outcome u) st) s) := by
  have h := processAll_foldl outcome urls [] s
  rw [List.nil_append] at h
  exact congrArg Except.ok h

/-- C8, counterexample: the ingestion path caches a revoked record with the
24-hour TTL, and the query path writes back a not-revoked status with the
same 24-hour TTL — so not every revoked cache write uses a strictly longer
expiry than every not-revoked one. -/
theorem revoked_ttl_not_strictly_longer :
    sampleRun.cache "255" =
      some (⟨"255", true, some 100, some "", some "CA"⟩, ingestCacheTTL)
  ∧ (CheckCertificateStatus true false false emptyCache emptyStore "9").cache "9" =
      some (⟨"9", false, none, none, none⟩, queryCacheTTL false)
  ∧ ¬ ingestCacheTTL > queryCacheTTL false := by
  decide

/-- C8, amended: on the query-path write-back the revoked TTL (7 days) is
strictly longer than the not-revoked TTL (24 hours); the ingestion path
writes its (revoked) records with a 24-hour TTL, equal to the query path's
not-revoked TTL. -/
theorem ttl_ordering_amended :
    queryCacheTTL false < queryCacheTTL true
  ∧ queryCacheTTL true = 7 * 24
  ∧ queryCacheTTL false = 24
  ∧ ingestCacheTTL = queryCacheTTL false := by
  decide

/-- C9: running the single-CRL persistence twice in sequence over the same
decoded entries (and the same per-batch outcomes) leaves the durable store
exactly as one run does — the serial-keyed upsert is idempotent. -/
theorem ingest_twice_idempotent_store (issuerNameStr : String) (F : Nat → Option Nat)
    (entries : List RevokedEntry) (s : IngestState) :
    (ProcessSingleCRLData issuerNameStr F entries
        (ProcessSingleCRLData issuerNameStr F entries s)).store =
      (ProcessSingleCRLData issuerNameStr F entries s).store := by
  unfold ProcessSingleCRLData
  have hb := ingestLoop_eq_runIngestBatches issuerNameStr F entries [] 0
  rw [hb, hb]
  funext ser
  rw [runIngestBatches_store, runIngestBatches_store]
  cases hlw : lastWriteRun
      ((List.enumFrom 0
          (crlBatchesGo [] (entries.map (entryToRecord issuerNameStr)))).map
        (fun p => (p.2, F p.1))) ser with
  | some c => rfl
  | none => rfl

/-- C10, counterexample: when the lease-existence check returns an error but
the subsequent `SetCRLProcessing(url, true)` succeeds, the call proceeds to
fetch/parse/persist while actually holding the processing lease — refuting
"proceeds without holding any ProcessingLease". -/
theorem check_error_still_sets_lease :
    (processSingleLeasePhase (some ⟨Except.error (), true⟩)).proceeds = true
  ∧ (processSingleLeasePhase (some ⟨Except.error (), true⟩)).leaseHeld = true := by
  constructor
  · rfl
  · rfl

/-- C10, amended: with no Redis client the call proceeds with no lease
interaction at all; when the lease-existence check errors the call still
proceeds (the mutual-exclusion check is bypassed) but it still attempts the
acquisition, so the lease is held exactly when that set succeeds. -/
theorem lease_phase_bypass_amended (redis : Option RedisLeaseOracle)
    (h : redis = none ∨ ∃ o, redis = some o ∧ o.checkRes = Except.error ()) :
    (processSingleLeasePhase redis).proceeds = true
  ∧ (redis = none → (processSingleLeasePhase redis).leaseHeld = false)
  ∧ (∀ o, redis = some o → (processSingleLeasePhase redis).leaseHeld = o.setOk) := by
  rcases h with h | ⟨o, rfl, herr⟩
  · subst h
    exact ⟨rfl, fun _ => rfl, fun o ho => Option.noConfusion ho⟩
  · obtain ⟨cr, so⟩ := o
    cases herr
    refine ⟨rfl, fun hc => Option.noConfusion hc, ?_⟩
    intro o2 ho2
    cases Option.some.inj ho2
    rfl

/-- C10, witness: the amended statement applied to the nil-Redis case. -/
theorem lease_phase_bypass_amended_witness :
    ((none : Option RedisLeaseOracle) = none ∨
      ∃ o, (none : Option RedisLeaseOracle) = some o ∧ o.checkRes = Except.error ())
  ∧ ((processSingleLeasePhase none).proceeds = true
     ∧ ((none : Option RedisLeaseOracle) = none →
          (processSingleLeasePhase none).leaseHeld = false)
     ∧ (∀ o, (none : Option RedisLeaseOracle) = some o →
          (processSingleLeasePhase none).leaseHeld = o.setOk)) :=
  ⟨Or.inl rfl, lease_phase_bypass_amended none (Or.inl rfl)⟩

end SignerFlow
